import Mathlib

/-!
Shallow embedding of `src/game.js` (lunar-lander core): terrain generation,
terrain height lookup, per-tick physics and the landing/crash classifier.

JS numbers are modelled as exact rationals (`ℚ`); `Math.floor` is `Int.floor`,
`Math.round x` is `⌊x + 1/2⌋` (JS rounds half-up), and the JS remainder
operator `%` truncates toward zero.  The two trigonometric calls in the thrust
branch are abstracted as function parameters `tcos tsin : ℚ → ℚ` standing for
`Math.cos((angle - 90) * π / 180)` and `Math.sin((angle - 90) * π / 180)`; no
claim below depends on their values.  `Math.random()` is modelled as an
injected stream `rand : ℕ → ℚ` of draws, consumed in program order.
-/

namespace Lnrlndr

-- ─── Constants (src/game.js lines 4-15) ───

def W : ℚ := 800
def H : ℚ := 600
def GRAVITY : ℚ := 0.025
def THRUST_POWER : ℚ := 0.06
def ROTATE_SPEED : ℚ := 2.5
def MAX_LAND_VY : ℚ := 2.0
def MAX_LAND_VX : ℚ := 1.2
def MAX_LAND_ANGLE : ℚ := 15
def INITIAL_FUEL : ℚ := 500
def PAD_WIDTH : ℚ := 80

-- ─── JS numeric primitives ───

/-- JS truncation toward zero, as used by the `%` operator. -/
def jsTrunc (q : ℚ) : ℤ := if 0 ≤ q then ⌊q⌋ else ⌈q⌉

/-- JS remainder `a % n` (sign follows the dividend). -/
def jsMod (a n : ℚ) : ℚ := a - n * (jsTrunc (a / n) : ℚ)

/-- JS `Math.round` (half-up, also for negative arguments). -/
def jsRound (q : ℚ) : ℤ := ⌊q + 1 / 2⌋

-- ─── Terrain data (src/game.js lines 18-57) ───

/-- One terrain vertex `{x, y}`. -/
structure Point where
  x : ℚ
  y : ℚ
deriving DecidableEq, Repr

/-- The value returned by `generateTerrain`: `{ points, padX, padY }`. -/
structure Terrain where
  points : List Point
  padX : ℚ
  padY : ℚ
deriving DecidableEq, Repr

-- ─── Terrain height lookup (src/game.js lines 111-125) ───

/-- The `while (lo < hi)` loop of `terrainYAt`, with an explicit fuel bound on
the number of iterations.  The interval `[lo, hi]` shrinks strictly at each
step, so any `fuel ≥ hi - lo` yields the loop's exit value (proved below in
`bsearchAux_fuel_irrelevant`); `bsearch` supplies `fuel = hi - lo`. -/
def bsearchAux (P : ℕ → Bool) : ℕ → ℕ → ℕ → ℕ
  | 0, lo, _ => lo
  | fuel + 1, lo, hi =>
    if lo < hi then
      if P ((lo + hi) / 2) then bsearchAux P fuel ((lo + hi) / 2 + 1) hi
      else bsearchAux P fuel lo ((lo + hi) / 2)
    else lo

/-- Binary search for the segment: returns the final value of `lo`. -/
def bsearch (P : ℕ → Bool) (lo hi : ℕ) : ℕ := bsearchAux P (hi - lo) lo hi

/-- Function `terrainYAt` (src/game.js lines 111-125): terrain y-value at `x` by
linear interpolation on the bracketing segment.  Out-of-bounds list reads
(which cannot occur for the index arithmetic of the source) are modelled with
the default point `⟨0, 0⟩`. -/
def terrainYAt (terrain : List Point) (x : ℚ) : ℚ :=
  if terrain.length < 2 then H
  else
    let lo := bsearch (fun mid => decide ((terrain.getD (mid + 1) ⟨0, 0⟩).x ≤ x)) 0
      (terrain.length - 2)
    let p1 := terrain.getD lo ⟨0, 0⟩
    let p2 := terrain.getD (min (lo + 1) (terrain.length - 1)) ⟨0, 0⟩
    if p2.x = p1.x then p1.y
    else p1.y + (x - p1.x) / (p2.x - p1.x) * (p2.y - p1.y)

-- ─── Terrain generation (src/game.js lines 23-58) ───

/-- Read `raw[i]`; `none` models a hole of `new Array(segs)` (JS `undefined`).
The numeric default `0` is never reached by the generator: `displace` only
reads indices it has already written or the pre-seeded endpoints. -/
def jsGet (raw : ℕ → Option ℚ) (i : ℕ) : ℚ := (raw i).getD 0

/-- The recursive `displace(lo, hi, rough)` of `generateTerrain`, threading the
`raw` array (as a map to optional values), the random stream index `k`, and an
explicit fuel bound on the recursion depth.  Since each half of `[lo, hi]` is
strictly shorter than `hi - lo` whenever `hi - lo ≥ 2`, any `fuel ≥ hi - lo`
reproduces the unbounded JS recursion; the caller passes `fuel = segs`. -/
def displaceAux (rand : ℕ → ℚ) :
    ℕ → (ℕ → Option ℚ) → ℕ → ℕ → ℚ → ℕ → (ℕ → Option ℚ) × ℕ
  | 0, raw, _, _, _, k => (raw, k)
  | fuel + 1, raw, lo, hi, rough, k =>
    if hi - lo ≤ 1 then (raw, k)
    else
      let mid := (lo + hi) / 2
      let v := (jsGet raw lo + jsGet raw hi) / 2 + (rand k - 0.5) * rough
      let v2 := max (H * 0.45) (min (H - 20) v)
      let raw2 := fun j => if j = mid then some v2 else raw j
      let left := displaceAux rand fuel raw2 lo mid (rough * 0.6) (k + 1)
      displaceAux rand fuel left.1 mid hi (rough * 0.6) left.2

/-- Source `padX = Math.floor(Math.random() * (W * 0.5) + W * 0.2)` (line 28);
`rand 0` is the first draw of the generator. -/
def gtPadX (rand : ℕ → ℚ) : ℚ := (⌊rand 0 * (W * 0.5) + W * 0.2⌋ : ℤ)

/-- Source `padY = Math.floor(Math.random() * (H * 0.25) + H * 0.55)` (line 29). -/
def gtPadY (rand : ℕ → ℚ) : ℚ := (⌊rand 1 * (H * 0.25) + H * 0.55⌋ : ℤ)

/-- Source `segs = Math.ceil(W / step) + 1` with `step = 10` (line 32). -/
def segs : ℕ := (⌈W / 10⌉).toNat + 1

/-- The `raw` array after the two endpoint seeds (lines 33-35): `raw[0]` and
`raw[segs-1]` hold `padY` plus jitter, every other slot is still a hole. -/
def gtRawSeeded (rand : ℕ → ℚ) : ℕ → Option ℚ :=
  fun j =>
    if j = segs - 1 then some (gtPadY rand + (rand 3 - 0.5) * 80)
    else if j = 0 then some (gtPadY rand + (rand 2 - 0.5) * 80)
    else none

/-- The `raw` array after `displace(0, segs - 1, 120)` (line 45); draws
`rand 4, rand 5, ...` feed the displacement in pre-order. -/
def gtRaw (rand : ℕ → ℚ) : ℕ → Option ℚ :=
  (displaceAux rand segs (gtRawSeeded rand) 0 (segs - 1) 120 4).1

/-- The point pushed for column `i` (lines 47-55): the pad band is flattened
to `padY`, every other column takes `Math.round(raw[i]) || padY` (the `padY`
fallback fires on a hole — JS `NaN` — or a rounded height of `0`). -/
def gtPoint (rand : ℕ → ℚ) (i : ℕ) : Point :=
  let x : ℚ := (i : ℚ) * 10
  if gtPadX rand ≤ x ∧ x ≤ gtPadX rand + PAD_WIDTH then ⟨x, gtPadY rand⟩
  else
    match gtRaw rand i with
    | none => ⟨x, gtPadY rand⟩
    | some v =>
      let r : ℚ := (jsRound v : ℤ)
      if r = 0 then ⟨x, gtPadY rand⟩ else ⟨x, r⟩

/-- Function `generateTerrain` (src/game.js lines 23-58) over an injected random
stream; draws are consumed in program order (`padX`, `padY`, the two endpoint
seeds, then the pre-order draws of `displace`). -/
def generateTerrain (rand : ℕ → ℚ) : Terrain :=
  ⟨(List.range segs).map (gtPoint rand), gtPadX rand, gtPadY rand⟩

-- ─── Lander state and per-tick update (src/game.js lines 61-73, 127-187) ───

/-- The mutable lander record of `createLander` (src/game.js lines 61-73). -/
structure Lander where
  x : ℚ
  y : ℚ
  vx : ℚ
  vy : ℚ
  angle : ℚ
  fuel : ℚ
  thrusting : Bool
  dead : Bool
  landed : Bool
deriving DecidableEq, Repr

/-- `createLander` (src/game.js lines 61-73); the single random draw feeds
the initial horizontal velocity. -/
def createLander (rand : ℕ → ℚ) : Lander :=
  ⟨W / 2, 80, (rand 0 - 0.5) * 1.5, 0.5, 0, INITIAL_FUEL, false, false, false⟩

/-- The per-frame key bundle read by `update`: `ArrowLeft`, `ArrowRight`, and
`ArrowUp || Space`. -/
structure Inputs where
  left : Bool
  right : Bool
  thrust : Bool
deriving DecidableEq, Repr

/-- The classified result of a terminating tick (spec §3); `Landed` carries
the `score` the code assigns, `CrashedTooFast` the speed shown in the
crash message. -/
inductive Outcome where
  | Landed (score : ℚ)
  | CrashedOffPad
  | CrashedTilted
  | CrashedTooFast (measuredSpeed : ℚ)
deriving DecidableEq, Repr

/-- The two sequential wrap statements of `update` (src/game.js lines
151-152): `if (x < 0) x = W; if (x > W) x = 0;`. -/
def wrapX (x : ℚ) : ℚ :=
  let a := if x < 0 then W else x
  if W < a then 0 else a

/-- Source `((angle % 360) + 360) % 360` (src/game.js line 161). -/
def normAngleOf (a : ℚ) : ℚ := jsMod (jsMod a 360 + 360) 360

/-- Source `Math.min(normAngle, 360 - normAngle)` (src/game.js line 162). -/
def angleDiffOf (a : ℚ) : ℚ := min (normAngleOf a) (360 - normAngleOf a)

/-- Source `lander.x >= padX && lander.x <= padX + PAD_WIDTH` (src/game.js line 160). -/
def onPad (padX x : ℚ) : Bool := decide (padX ≤ x ∧ x ≤ padX + PAD_WIDTH)

/-- Source `angleDiff <= MAX_LAND_ANGLE` (src/game.js line 163). -/
def safeAngle (a : ℚ) : Bool := decide (angleDiffOf a ≤ MAX_LAND_ANGLE)

/-- Source `|vy| <= MAX_LAND_VY && |vx| <= MAX_LAND_VX` (src/game.js line 164). -/
def safeSpeed (vx vy : ℚ) : Bool := decide (|vy| ≤ MAX_LAND_VY ∧ |vx| ≤ MAX_LAND_VX)

/-- Rotation, thrust, gravity, integration and wrap (src/game.js lines
130-152): the state just before the collision check. -/
def physStep (tcos tsin : ℚ → ℚ) (inp : Inputs) (l : Lander) : Lander :=
  let angle1 := if inp.left then l.angle - ROTATE_SPEED else l.angle
  let angle2 := if inp.right then angle1 + ROTATE_SPEED else angle1
  let thrusting := inp.thrust && decide (0 < l.fuel)
  let vx1 := if thrusting then l.vx + tcos angle2 * THRUST_POWER else l.vx
  let vy1 := if thrusting then l.vy + tsin angle2 * THRUST_POWER else l.vy
  let fuel1 := if thrusting then max 0 (l.fuel - 1) else l.fuel
  let vy2 := vy1 + GRAVITY
  ⟨wrapX (l.x + vx1), l.y + vy2, vx1, vy2, angle2, fuel1, thrusting, l.dead, l.landed⟩

/-- The collision check and outcome classification (src/game.js lines
154-186), applied to the post-integration state `m`.  Note the source zeroes
`lander.vy` and only then reads it for the speed bonus, so `fvy` below is the
zeroed value, not the impact speed. -/
def classify (terrain : List Point) (padX : ℚ) (m : Lander) : Lander × Option Outcome :=
  let groundY := terrainYAt terrain m.x
  if groundY ≤ m.y + 14 then
    if onPad padX m.x && safeAngle m.angle && safeSpeed m.vx m.vy then
      let fvy : ℚ := 0
      let speedBonus : ℚ := (jsRound ((MAX_LAND_VY - |fvy|) * 100) : ℤ)
      let score := m.fuel + speedBonus
      (⟨m.x, groundY - 14, 0, 0, m.angle, m.fuel, m.thrusting, m.dead, true⟩,
        some (Outcome.Landed score))
    else
      let m2 : Lander :=
        ⟨m.x, groundY - 14, m.vx, m.vy, m.angle, m.fuel, m.thrusting, true, m.landed⟩
      if !(onPad padX m.x) then (m2, some Outcome.CrashedOffPad)
      else if !(safeAngle m.angle) then (m2, some Outcome.CrashedTilted)
      else (m2, some (Outcome.CrashedTooFast |m.vy|))
  else (m, none)

/-- Function `update` (src/game.js lines 127-187) as a pure tick function over the
session data (`terrain`, `padX`) it reads. -/
def update (tcos tsin : ℚ → ℚ) (terrain : List Point) (padX : ℚ)
    (inp : Inputs) (l : Lander) : Lander × Option Outcome :=
  if l.dead || l.landed then (l, none)
  else classify terrain padX (physStep tcos tsin inp l)

-- ─── Binary search lemmas ───

/-- Any fuel of at least `hi - lo` computes the loop's exit value: if the
tested predicate is `true` exactly below a threshold `k` of the searched
range, the search returns `k`. -/
lemma bsearchAux_eq (P : ℕ → Bool) (k : ℕ) :
    ∀ fuel lo hi, hi - lo ≤ fuel → lo ≤ k → k ≤ hi →
      (∀ j, lo ≤ j → j < hi → (P j = true ↔ j < k)) →
      bsearchAux P fuel lo hi = k := by
  intro fuel
  induction fuel with
  | zero =>
    intro lo hi h1 h2 h3 _
    simp only [bsearchAux]
    omega
  | succ fuel ih =>
    intro lo hi h1 h2 h3 hiff
    by_cases hlh : lo < hi
    · have hmid1 : lo ≤ (lo + hi) / 2 := by omega
      have hmid2 : (lo + hi) / 2 < hi := by omega
      cases hP : P ((lo + hi) / 2) with
      | true =>
        have hk : (lo + hi) / 2 < k := (hiff _ hmid1 hmid2).mp hP
        simp only [bsearchAux, if_pos hlh, hP, if_true]
        exact ih _ _ (by omega) (by omega) h3 fun j hj1 hj2 => hiff j (by omega) hj2
      | false =>
        have hk : k ≤ (lo + hi) / 2 := by
          by_contra hc
          have := (hiff _ hmid1 hmid2).mpr (by omega)
          simp [this] at hP
        simp only [bsearchAux, if_pos hlh, hP, if_false, Bool.false_eq_true]
        exact ih _ _ (by omega) h2 hk fun j hj1 hj2 => hiff j hj1 (by omega)
    · simp only [bsearchAux, if_neg hlh]
      omega

/-- The search result never drops below `lo`. -/
lemma bsearchAux_ge (P : ℕ → Bool) :
    ∀ fuel lo hi, lo ≤ bsearchAux P fuel lo hi := by
  intro fuel
  induction fuel with
  | zero => intro lo hi; simp [bsearchAux]
  | succ fuel ih =>
    intro lo hi
    by_cases hlh : lo < hi
    · cases hP : P ((lo + hi) / 2) with
      | true =>
        simp only [bsearchAux, if_pos hlh, hP, if_true]
        have := ih ((lo + hi) / 2 + 1) hi
        omega
      | false =>
        simp only [bsearchAux, if_pos hlh, hP, if_false, Bool.false_eq_true]
        exact ih lo ((lo + hi) / 2)
    · simp [bsearchAux, if_neg hlh]

/-- The search result never exceeds `max lo hi`. -/
lemma bsearchAux_le (P : ℕ → Bool) :
    ∀ fuel lo hi, bsearchAux P fuel lo hi ≤ max lo hi := by
  intro fuel
  induction fuel with
  | zero => intro lo hi; simp [bsearchAux]
  | succ fuel ih =>
    intro lo hi
    by_cases hlh : lo < hi
    · cases hP : P ((lo + hi) / 2) with
      | true =>
        simp only [bsearchAux, if_pos hlh, hP, if_true]
        have := ih ((lo + hi) / 2 + 1) hi
        omega
      | false =>
        simp only [bsearchAux, if_pos hlh, hP, if_false, Bool.false_eq_true]
        have := ih lo ((lo + hi) / 2)
        omega
    · simp [bsearchAux, if_neg hlh]

/-- Adding one unit of fuel beyond `hi - lo` does not change the result. -/
lemma bsearchAux_fuel_step (P : ℕ → Bool) :
    ∀ fuel lo hi, hi - lo ≤ fuel →
      bsearchAux P fuel lo hi = bsearchAux P (fuel + 1) lo hi := by
  intro fuel
  induction fuel with
  | zero =>
    intro lo hi h1
    have hlh : ¬ lo < hi := by omega
    simp [bsearchAux, if_neg hlh]
  | succ fuel ih =>
    intro lo hi h1
    by_cases hlh : lo < hi
    · cases hP : P ((lo + hi) / 2) with
      | true =>
        simp only [bsearchAux, if_pos hlh, hP, if_true]
        exact ih _ _ (by omega)
      | false =>
        simp only [bsearchAux, if_pos hlh, hP, if_false, Bool.false_eq_true]
        exact ih _ _ (by omega)
    · simp only [bsearchAux, if_neg hlh]

/-- Any two sufficient fuels agree: the loop's value is well defined. -/
lemma bsearchAux_fuel_irrelevant (P : ℕ → Bool) (lo hi fuel fuel' : ℕ)
    (h : hi - lo ≤ fuel) (h' : hi - lo ≤ fuel') :
    bsearchAux P fuel lo hi = bsearchAux P fuel' lo hi := by
  have key : ∀ d base, hi - lo ≤ base →
      bsearchAux P base lo hi = bsearchAux P (base + d) lo hi := by
    intro d
    induction d with
    | zero => intro base _; rfl
    | succ d ih =>
      intro base hb
      calc bsearchAux P base lo hi = bsearchAux P (base + d) lo hi := ih base hb
        _ = bsearchAux P (base + d + 1) lo hi :=
          bsearchAux_fuel_step P (base + d) lo hi (by omega)
  have e1 := key (fuel - (hi - lo)) (hi - lo) (le_refl _)
  have e2 := key (fuel' - (hi - lo)) (hi - lo) (le_refl _)
  have r1 : hi - lo + (fuel - (hi - lo)) = fuel := by omega
  have r2 : hi - lo + (fuel' - (hi - lo)) = fuel' := by omega
  rw [r1] at e1
  rw [r2] at e2
  rw [← e1, ← e2]

/-- Unfold `terrainYAt` once the search result and the non-degeneracy of the
bracketing segment are known. -/
lemma terrainYAt_eq_of_bsearch (terrain : List Point) (x : ℚ) (i : ℕ)
    (h2 : 2 ≤ terrain.length) (hi : i + 1 ≤ terrain.length - 1)
    (hbs : bsearch (fun mid => decide ((terrain.getD (mid + 1) ⟨0, 0⟩).x ≤ x)) 0
      (terrain.length - 2) = i)
    (hne : ¬ (terrain.getD (i + 1) ⟨0, 0⟩).x = (terrain.getD i ⟨0, 0⟩).x) :
    terrainYAt terrain x =
      (terrain.getD i ⟨0, 0⟩).y +
        (x - (terrain.getD i ⟨0, 0⟩).x) /
          ((terrain.getD (i + 1) ⟨0, 0⟩).x - (terrain.getD i ⟨0, 0⟩).x) *
          ((terrain.getD (i + 1) ⟨0, 0⟩).y - (terrain.getD i ⟨0, 0⟩).y) := by
  have hlen : ¬ terrain.length < 2 := by omega
  have hmin : min (i + 1) (terrain.length - 1) = i + 1 := min_eq_left hi
  simp only [terrainYAt, if_neg hlen, hbs, hmin, if_neg hne]

/-- Non-strict monotonicity of the x-coordinates, derived from strictness. -/
lemma getD_x_mono (terrain : List Point)
    (hmono : ∀ i j, i < j → j < terrain.length →
      (terrain.getD i ⟨0, 0⟩).x < (terrain.getD j ⟨0, 0⟩).x) :
    ∀ a b, a ≤ b → b < terrain.length →
      (terrain.getD a ⟨0, 0⟩).x ≤ (terrain.getD b ⟨0, 0⟩).x := by
  intro a b hab hb
  rcases Nat.lt_or_ge a b with h | h
  · exact le_of_lt (hmono a b h hb)
  · have : a = b := by omega
    rw [this]

/-- C5: For every terrain with at least 2 points whose x-coordinates are
strictly increasing, `terrainYAt` returns exactly the linear interpolation
between the two bracketing points for any x strictly between two consecutive
terrain points, and returns the point's own y at an exact terrain point x. -/
theorem interpolation_correct (terrain : List Point) (x : ℚ)
    (h2 : 2 ≤ terrain.length)
    (hmono : ∀ i j, i < j → j < terrain.length →
      (terrain.getD i ⟨0, 0⟩).x < (terrain.getD j ⟨0, 0⟩).x) :
    (∀ i, i + 1 < terrain.length →
      (terrain.getD i ⟨0, 0⟩).x < x → x < (terrain.getD (i + 1) ⟨0, 0⟩).x →
      terrainYAt terrain x =
        (terrain.getD i ⟨0, 0⟩).y +
          (x - (terrain.getD i ⟨0, 0⟩).x) /
            ((terrain.getD (i + 1) ⟨0, 0⟩).x - (terrain.getD i ⟨0, 0⟩).x) *
            ((terrain.getD (i + 1) ⟨0, 0⟩).y - (terrain.getD i ⟨0, 0⟩).y)) ∧
    (∀ i, i < terrain.length → x = (terrain.getD i ⟨0, 0⟩).x →
      terrainYAt terrain x = (terrain.getD i ⟨0, 0⟩).y) := by
  have hmono' := getD_x_mono terrain hmono
  constructor
  · intro i hi hx1 hx2
    have hbs : bsearch (fun mid => decide ((terrain.getD (mid + 1) ⟨0, 0⟩).x ≤ x)) 0
        (terrain.length - 2) = i := by
      apply bsearchAux_eq
      · omega
      · omega
      · omega
      · intro j _ hj2
        simp only [decide_eq_true_eq]
        constructor
        · intro hle
          by_contra hc
          have : (terrain.getD (i + 1) ⟨0, 0⟩).x ≤ (terrain.getD (j + 1) ⟨0, 0⟩).x :=
            hmono' (i + 1) (j + 1) (by omega) (by omega)
          linarith
        · intro hji
          have : (terrain.getD (j + 1) ⟨0, 0⟩).x ≤ (terrain.getD i ⟨0, 0⟩).x :=
            hmono' (j + 1) i (by omega) (by omega)
          linarith
    exact terrainYAt_eq_of_bsearch terrain x i h2 (by omega) hbs
      (by have := lt_trans hx1 hx2; intro he; rw [he] at this; exact lt_irrefl _ this)
  · intro i hi hxe
    rcases Nat.lt_or_ge (i + 1) terrain.length with hcase | hcase
    · -- x is an interior or first terrain point: the search lands on segment i
      have hbs : bsearch (fun mid => decide ((terrain.getD (mid + 1) ⟨0, 0⟩).x ≤ x)) 0
          (terrain.length - 2) = i := by
        apply bsearchAux_eq
        · omega
        · omega
        · omega
        · intro j _ hj2
          simp only [decide_eq_true_eq]
          constructor
          · intro hle
            by_contra hc
            have h1 : (terrain.getD (i + 1) ⟨0, 0⟩).x ≤ (terrain.getD (j + 1) ⟨0, 0⟩).x :=
              hmono' (i + 1) (j + 1) (by omega) (by omega)
            have h2' : (terrain.getD i ⟨0, 0⟩).x < (terrain.getD (i + 1) ⟨0, 0⟩).x :=
              hmono i (i + 1) (by omega) (by omega)
            rw [hxe] at hle
            linarith
          · intro hji
            have := hmono' (j + 1) i (by omega) (by omega)
            rw [hxe]
            linarith
      have hlt : (terrain.getD i ⟨0, 0⟩).x < (terrain.getD (i + 1) ⟨0, 0⟩).x :=
        hmono i (i + 1) (by omega) (by omega)
      rw [terrainYAt_eq_of_bsearch terrain x i h2 (by omega) hbs
        (by intro he; rw [he] at hlt; exact lt_irrefl _ hlt)]
      rw [hxe, sub_self, zero_div, zero_mul, add_zero]
    · -- x is the last terrain point: the search lands on the final segment
      have hieq : i = terrain.length - 1 := by omega
      have hbs : bsearch (fun mid => decide ((terrain.getD (mid + 1) ⟨0, 0⟩).x ≤ x)) 0
          (terrain.length - 2) = terrain.length - 2 := by
        apply bsearchAux_eq
        · omega
        · omega
        · omega
        · intro j _ hj2
          simp only [decide_eq_true_eq]
          constructor
          · intro _; omega
          · intro _
            have := hmono' (j + 1) i (by omega) (by omega)
            rw [hxe]
            linarith
      have hsucc : terrain.length - 2 + 1 = terrain.length - 1 := by omega
      have hlt : (terrain.getD (terrain.length - 2) ⟨0, 0⟩).x <
          (terrain.getD (terrain.length - 1) ⟨0, 0⟩).x :=
        hmono (terrain.length - 2) (terrain.length - 1) (by omega) (by omega)
      have hform := terrainYAt_eq_of_bsearch terrain x (terrain.length - 2) h2 (by omega) hbs
        (by rw [hsucc]; intro he; rw [he] at hlt; exact lt_irrefl _ hlt)
      rw [hsucc] at hform
      rw [hieq] at hxe
      have hne : (terrain.getD (terrain.length - 1) ⟨0, 0⟩).x -
          (terrain.getD (terrain.length - 2) ⟨0, 0⟩).x ≠ 0 :=
        sub_ne_zero.mpr (ne_of_gt hlt)
      rw [hform, hieq, hxe, div_self hne, one_mul]
      ring

/-- C5 witness: on the terrain `[(0,0), (10,10)]` the lookup at the interior
point `x = 5` interpolates to `5`, and at the vertex `x = 10` returns `10`. -/
theorem interpolation_correct_witness :
    2 ≤ ([⟨0, 0⟩, ⟨10, 10⟩] : List Point).length ∧
    terrainYAt [⟨0, 0⟩, ⟨10, 10⟩] 5 = 5 ∧ terrainYAt [⟨0, 0⟩, ⟨10, 10⟩] 10 = 10 := by
  have hmono : ∀ i j, i < j → j < ([⟨0, 0⟩, ⟨10, 10⟩] : List Point).length →
      (([⟨0, 0⟩, ⟨10, 10⟩] : List Point).getD i ⟨0, 0⟩).x <
        (([⟨0, 0⟩, ⟨10, 10⟩] : List Point).getD j ⟨0, 0⟩).x := by
    intro i j hij hj
    have hj1 : j = 1 := by simp at hj; omega
    have hi0 : i = 0 := by omega
    rw [hj1, hi0]
    norm_num [List.getD]
  have h := interpolation_correct [⟨0, 0⟩, ⟨10, 10⟩] 5 (by norm_num) hmono
  have h10 := interpolation_correct [⟨0, 0⟩, ⟨10, 10⟩] 10 (by norm_num) hmono
  refine ⟨by norm_num, ?_, ?_⟩
  · have := h.1 0 (by norm_num) (by norm_num [List.getD]) (by norm_num [List.getD])
    rw [this]
    norm_num [List.getD]
  · have := h10.2 1 (by norm_num) (by norm_num [List.getD])
    rw [this]
    norm_num [List.getD]

/-- C3 counterexample: on the two-point terrain `[(0,100), (10,200)]` the
lookup at `x = -10` (outside `[0, W]`) returns `0`, which is not the height
`100` of the nearest domain boundary and lies off the boundary segment's
endpoint heights `[100, 200]`. -/
theorem lookup_outside_domain_counterexample :
    terrainYAt [⟨0, 100⟩, ⟨10, 200⟩] (-10) = 0 ∧ ¬ ((0 : ℚ) = 100) ∧
      ¬ (100 ≤ (0 : ℚ) ∧ (0 : ℚ) ≤ 200) := by
  refine ⟨?_, by norm_num, by norm_num⟩
  norm_num [terrainYAt, bsearch, bsearchAux, List.getD]

/-- C3 amended: for every terrain with at least 2 strictly x-increasing
points and x outside the terrain's x-range, the lookup does not fail: it
clamps the segment choice to the nearest boundary segment and returns the
linear extension of that segment at x (which can lie outside the boundary
segment's endpoint heights). -/
theorem lookup_extrapolates_outside_domain (terrain : List Point) (x : ℚ)
    (h2 : 2 ≤ terrain.length)
    (hmono : ∀ i j, i < j → j < terrain.length →
      (terrain.getD i ⟨0, 0⟩).x < (terrain.getD j ⟨0, 0⟩).x) :
    (x < (terrain.getD 0 ⟨0, 0⟩).x →
      terrainYAt terrain x =
        (terrain.getD 0 ⟨0, 0⟩).y +
          (x - (terrain.getD 0 ⟨0, 0⟩).x) /
            ((terrain.getD 1 ⟨0, 0⟩).x - (terrain.getD 0 ⟨0, 0⟩).x) *
            ((terrain.getD 1 ⟨0, 0⟩).y - (terrain.getD 0 ⟨0, 0⟩).y)) ∧
    ((terrain.getD (terrain.length - 1) ⟨0, 0⟩).x < x →
      terrainYAt terrain x =
        (terrain.getD (terrain.length - 2) ⟨0, 0⟩).y +
          (x - (terrain.getD (terrain.length - 2) ⟨0, 0⟩).x) /
            ((terrain.getD (terrain.length - 1) ⟨0, 0⟩).x -
              (terrain.getD (terrain.length - 2) ⟨0, 0⟩).x) *
            ((terrain.getD (terrain.length - 1) ⟨0, 0⟩).y -
              (terrain.getD (terrain.length - 2) ⟨0, 0⟩).y)) := by
  have hmono' := getD_x_mono terrain hmono
  constructor
  · intro hx
    have hbs : bsearch (fun mid => decide ((terrain.getD (mid + 1) ⟨0, 0⟩).x ≤ x)) 0
        (terrain.length - 2) = 0 := by
      apply bsearchAux_eq
      · omega
      · omega
      · omega
      · intro j _ hj2
        simp only [decide_eq_true_eq]
        constructor
        · intro hle
          have := hmono' 0 (j + 1) (by omega) (by omega)
          linarith
        · omega
    have hlt : (terrain.getD 0 ⟨0, 0⟩).x < (terrain.getD 1 ⟨0, 0⟩).x :=
      hmono 0 1 (by omega) (by omega)
    exact terrainYAt_eq_of_bsearch terrain x 0 h2 (by omega) hbs
      (by intro he; rw [he] at hlt; exact lt_irrefl _ hlt)
  · intro hx
    have hbs : bsearch (fun mid => decide ((terrain.getD (mid + 1) ⟨0, 0⟩).x ≤ x)) 0
        (terrain.length - 2) = terrain.length - 2 := by
      apply bsearchAux_eq
      · omega
      · omega
      · omega
      · intro j _ hj2
        simp only [decide_eq_true_eq]
        constructor
        · intro _; omega
        · intro _
          have := hmono' (j + 1) (terrain.length - 1) (by omega) (by omega)
          linarith
    have hsucc : terrain.length - 2 + 1 = terrain.length - 1 := by omega
    have hlt : (terrain.getD (terrain.length - 2) ⟨0, 0⟩).x <
        (terrain.getD (terrain.length - 1) ⟨0, 0⟩).x :=
      hmono (terrain.length - 2) (terrain.length - 1) (by omega) (by omega)
    have hform := terrainYAt_eq_of_bsearch terrain x (terrain.length - 2) h2 (by omega) hbs
      (by rw [hsucc]; intro he; rw [he] at hlt; exact lt_irrefl _ hlt)
    rw [hsucc] at hform
    exact hform

/-- C3 amended witness: on `[(0,100), (10,200)]` the lookup extrapolates the
first segment to `0` at `x = -10` and the last segment to `300` at `x = 20`. -/
theorem lookup_extrapolates_outside_domain_witness :
    2 ≤ ([⟨0, 100⟩, ⟨10, 200⟩] : List Point).length ∧
    terrainYAt [⟨0, 100⟩, ⟨10, 200⟩] (-10) = 0 ∧
    terrainYAt [⟨0, 100⟩, ⟨10, 200⟩] 20 = 300 := by
  have hmono : ∀ i j, i < j → j < ([⟨0, 100⟩, ⟨10, 200⟩] : List Point).length →
      (([⟨0, 100⟩, ⟨10, 200⟩] : List Point).getD i ⟨0, 0⟩).x <
        (([⟨0, 100⟩, ⟨10, 200⟩] : List Point).getD j ⟨0, 0⟩).x := by
    intro i j hij hj
    have hj1 : j = 1 := by simp at hj; omega
    have hi0 : i = 0 := by omega
    rw [hj1, hi0]
    norm_num [List.getD]
  have hlow := (lookup_extrapolates_outside_domain [⟨0, 100⟩, ⟨10, 200⟩] (-10)
    (by norm_num) hmono).1 (by norm_num [List.getD])
  have hhigh := (lookup_extrapolates_outside_domain [⟨0, 100⟩, ⟨10, 200⟩] 20
    (by norm_num) hmono).2 (by norm_num [List.getD])
  refine ⟨by norm_num, ?_, ?_⟩
  · rw [hlow]; norm_num [List.getD]
  · rw [hhigh]; norm_num [List.getD]

/-- C10: the binary-search loop of the terrain height lookup terminates and
the function returns a value: its result does not depend on the iteration
bound once the bound covers the initial interval (the loop's value is well
defined), each iteration strictly shrinks the interval `[lo, hi]`, the result
stays inside `[lo, max lo hi]`, and `terrainYAt` is total. -/
theorem bsearch_loop_terminates (P : ℕ → Bool) (lo hi fuel fuel' : ℕ)
    (h : hi - lo ≤ fuel) (h' : hi - lo ≤ fuel') :
    bsearchAux P fuel lo hi = bsearchAux P fuel' lo hi ∧
    lo ≤ bsearch P lo hi ∧ bsearch P lo hi ≤ max lo hi ∧
    (lo < hi → hi - ((lo + hi) / 2 + 1) < hi - lo ∧ (lo + hi) / 2 - lo < hi - lo) ∧
    (∀ terrain x, ∃ y, terrainYAt terrain x = y) := by
  refine ⟨bsearchAux_fuel_irrelevant P lo hi fuel fuel' h h', bsearchAux_ge P _ lo hi,
    bsearchAux_le P _ lo hi, fun hlh => ⟨by omega, by omega⟩, fun terrain x => ⟨_, rfl⟩⟩

/-- C10 witness: concrete instantiation with interval `[0, 5]` and two
different sufficient fuels. -/
theorem bsearch_loop_terminates_witness :
    5 - 0 ≤ 5 ∧ 5 - 0 ≤ 9 ∧
    bsearchAux (fun j => decide (j < 3)) 5 0 5 = bsearchAux (fun j => decide (j < 3)) 9 0 5 ∧
    0 ≤ bsearch (fun j => decide (j < 3)) 0 5 ∧
    bsearch (fun j => decide (j < 3)) 0 5 ≤ max 0 5 := by
  have h := bsearch_loop_terminates (fun j => decide (j < 3)) 0 5 5 9 (by omega) (by omega)
  exact ⟨by omega, by omega, h.1, h.2.1, h.2.2.1⟩

-- ─── Tick lemmas ───

/-- The classifier never changes `x`, `fuel`, `thrusting` or `angle`. -/
lemma classify_fields (terrain : List Point) (padX : ℚ) (m : Lander) :
    (classify terrain padX m).1.x = m.x ∧ (classify terrain padX m).1.fuel = m.fuel ∧
    (classify terrain padX m).1.thrusting = m.thrusting ∧
    (classify terrain padX m).1.angle = m.angle := by
  simp only [classify]
  split
  · split
    · exact ⟨rfl, rfl, rfl, rfl⟩
    · split
      · exact ⟨rfl, rfl, rfl, rfl⟩
      · split
        · exact ⟨rfl, rfl, rfl, rfl⟩
        · exact ⟨rfl, rfl, rfl, rfl⟩
  · exact ⟨rfl, rfl, rfl, rfl⟩

/-- Wrapping a value above `W` gives the left edge `0`. -/
lemma wrapX_high (z : ℚ) (h : W < z) : wrapX z = 0 := by
  have h0 : ¬ z < 0 := by simp only [W] at h; linarith
  simp only [wrapX, if_neg h0, if_pos h]

/-- Wrapping a negative value gives the right edge `W`. -/
lemma wrapX_low (z : ℚ) (h : z < 0) : wrapX z = W := by
  have hW : ¬ W < W := lt_irrefl W
  simp only [wrapX, if_pos h, if_neg hW]

/-- Wrapped values always land in `[0, W]`. -/
lemma wrapX_mem (z : ℚ) : 0 ≤ wrapX z ∧ wrapX z ≤ W := by
  by_cases h0 : z < 0
  · rw [wrapX_low z h0]
    simp [W]
  · by_cases hW : W < z
    · rw [wrapX_high z hW]
      simp [W]
    · simp only [wrapX, if_neg h0, if_neg hW]
      constructor
      · linarith
      · linarith

/-- C2 counterexample: a vehicle at `x = 800`, `vx = 0.5` integrates to
`x = W + 0.5` and ends the tick at `x = 0`, not `x ≈ 0.5`: the overshoot is
discarded. -/
theorem horizontal_wrap_counterexample :
    (update (fun _ => 0) (fun _ => 0) [⟨0, 500⟩, ⟨800, 500⟩] 300 ⟨false, false, false⟩
      ⟨800, 100, 0.5, 0, 0, 100, false, false, false⟩).1.x = 0 ∧ ¬ ((0 : ℚ) = 0.5) := by
  constructor
  · norm_num [update, classify, physStep, wrapX, terrainYAt, bsearch, bsearchAux,
      List.getD, GRAVITY, THRUST_POWER, W, H]
  · norm_num

/-- C2 amended: on a tick of an active vehicle, the post-tick x is the wrap
of the integrated x, where the wrap sets an x beyond `W` to exactly `0` and an
x below `0` to exactly `W` (discarding the overshoot), and the post-tick x
always lies within `[0, W]`. -/
theorem horizontal_wrap (tcos tsin : ℚ → ℚ) (terrain : List Point) (padX : ℚ)
    (inp : Inputs) (l : Lander) (hd : l.dead = false) (hl : l.landed = false) :
    (update tcos tsin terrain padX inp l).1.x =
      wrapX (l.x + (physStep tcos tsin inp l).vx) ∧
    0 ≤ (update tcos tsin terrain padX inp l).1.x ∧
    (update tcos tsin terrain padX inp l).1.x ≤ W ∧
    (∀ z, W < z → wrapX z = 0) ∧ (∀ z, z < 0 → wrapX z = W) ∧
    (∀ z, 0 ≤ wrapX z ∧ wrapX z ≤ W) := by
  have hnot : (l.dead || l.landed) = false := by rw [hd, hl]; rfl
  have hupd : update tcos tsin terrain padX inp l =
      classify terrain padX (physStep tcos tsin inp l) := by
    simp [update, hnot]
  have hx := (classify_fields terrain padX (physStep tcos tsin inp l)).1
  have hxs : (physStep tcos tsin inp l).x = wrapX (l.x + (physStep tcos tsin inp l).vx) := rfl
  rw [hupd, hx, hxs]
  exact ⟨rfl, (wrapX_mem _).1, (wrapX_mem _).2, wrapX_high, wrapX_low, wrapX_mem⟩

/-- C2 amended witness: the concrete vehicle integrating to `x = 800.5` ends
inside `[0, W]` at the wrapped value. -/
theorem horizontal_wrap_witness :
    (false : Bool) = false ∧
    (update (fun _ => 0) (fun _ => 0) [⟨0, 500⟩, ⟨800, 500⟩] 300 ⟨false, false, false⟩
        ⟨800, 100, 0.5, 0, 0, 100, false, false, false⟩).1.x =
      wrapX (800 + (physStep (fun _ => 0) (fun _ => 0) ⟨false, false, false⟩
        ⟨800, 100, 0.5, 0, 0, 100, false, false, false⟩).vx) ∧
    0 ≤ (update (fun _ => 0) (fun _ => 0) [⟨0, 500⟩, ⟨800, 500⟩] 300 ⟨false, false, false⟩
        ⟨800, 100, 0.5, 0, 0, 100, false, false, false⟩).1.x ∧
    (update (fun _ => 0) (fun _ => 0) [⟨0, 500⟩, ⟨800, 500⟩] 300 ⟨false, false, false⟩
        ⟨800, 100, 0.5, 0, 0, 100, false, false, false⟩).1.x ≤ W := by
  have h := horizontal_wrap (fun _ => 0) (fun _ => 0) [⟨0, 500⟩, ⟨800, 500⟩] 300
    ⟨false, false, false⟩ ⟨800, 100, 0.5, 0, 0, 100, false, false, false⟩ rfl rfl
  exact ⟨rfl, h.1, h.2.1, h.2.2.1⟩

/-- C7: once the vehicle is landed or crashed, a tick is a no-op: the state
is returned unchanged (every field, including `x, y, vx, vy, fuel, angle`) and
no outcome is produced, whatever the inputs. -/
theorem terminal_tick_noop (tcos tsin : ℚ → ℚ) (terrain : List Point) (padX : ℚ)
    (inp : Inputs) (l : Lander) (h : l.dead = true ∨ l.landed = true) :
    update tcos tsin terrain padX inp l = (l, none) := by
  have hb : (l.dead || l.landed) = true := by
    rcases h with h | h
    · rw [h]; rfl
    · rw [h, Bool.or_true]
  simp [update, hb]

/-- C7 witness: a crashed vehicle is left untouched by a tick with every
input held. -/
theorem terminal_tick_noop_witness :
    ((⟨1, 2, 3, 4, 5, 6, false, true, false⟩ : Lander).dead = true ∨
      (⟨1, 2, 3, 4, 5, 6, false, true, false⟩ : Lander).landed = true) ∧
    update (fun _ => 0) (fun _ => 0) [⟨0, 500⟩, ⟨800, 500⟩] 300 ⟨true, true, true⟩
      ⟨1, 2, 3, 4, 5, 6, false, true, false⟩ = (⟨1, 2, 3, 4, 5, 6, false, true, false⟩, none) :=
  ⟨Or.inl rfl, terminal_tick_noop (fun _ => 0) (fun _ => 0) [⟨0, 500⟩, ⟨800, 500⟩] 300
    ⟨true, true, true⟩ ⟨1, 2, 3, 4, 5, 6, false, true, false⟩ (Or.inl rfl)⟩

/-- C9: on a tick of an active vehicle, thrust is applied exactly when the
thrust input is held and fuel is positive; a thrusting tick sets fuel to
`max 0 (fuel - 1)` — a decrement by exactly 1 floored at 0 — and a
non-thrusting tick leaves fuel unchanged; fuel stays non-negative, never
increases, and stays a natural number when it was one (with `1 ≤ n` forced
before a thrusting decrement, so the decrement is exactly 1). -/
theorem fuel_thrust (tcos tsin : ℚ → ℚ) (terrain : List Point) (padX : ℚ)
    (inp : Inputs) (l : Lander) (hd : l.dead = false) (hl : l.landed = false)
    (hf : 0 ≤ l.fuel) :
    ((update tcos tsin terrain padX inp l).1.thrusting =
      (inp.thrust && decide (0 < l.fuel))) ∧
    ((update tcos tsin terrain padX inp l).1.thrusting = true →
      (update tcos tsin terrain padX inp l).1.fuel = max 0 (l.fuel - 1)) ∧
    ((update tcos tsin terrain padX inp l).1.thrusting = false →
      (update tcos tsin terrain padX inp l).1.fuel = l.fuel) ∧
    0 ≤ (update tcos tsin terrain padX inp l).1.fuel ∧
    (update tcos tsin terrain padX inp l).1.fuel ≤ l.fuel ∧
    (∀ n : ℕ, l.fuel = (n : ℚ) →
      ((update tcos tsin terrain padX inp l).1.thrusting = true →
        1 ≤ n ∧ (update tcos tsin terrain padX inp l).1.fuel = ((n - 1 : ℕ) : ℚ)) ∧
      ∃ m : ℕ, (update tcos tsin terrain padX inp l).1.fuel = (m : ℚ)) := by
  have hnot : (l.dead || l.landed) = false := by rw [hd, hl]; rfl
  have hupd : update tcos tsin terrain padX inp l =
      classify terrain padX (physStep tcos tsin inp l) := by
    simp [update, hnot]
  have hfields := classify_fields terrain padX (physStep tcos tsin inp l)
  have hth : (physStep tcos tsin inp l).thrusting = (inp.thrust && decide (0 < l.fuel)) := rfl
  have hfl : (physStep tcos tsin inp l).fuel =
      (if (inp.thrust && decide (0 < l.fuel)) = true then max 0 (l.fuel - 1) else l.fuel) := rfl
  rw [hupd, hfields.2.1, hfields.2.2.1, hth, hfl]
  cases ht : (inp.thrust && decide (0 < l.fuel)) with
  | true =>
    have hpos : 0 < l.fuel := by
      have := (Bool.and_eq_true _ _).mp ht
      exact of_decide_eq_true this.2
    have hif : (if (true : Bool) = true then max 0 (l.fuel - 1) else l.fuel) =
        max 0 (l.fuel - 1) := if_pos rfl
    rw [hif]
    refine ⟨rfl, fun _ => rfl, fun hc => absurd hc (by simp), ?_, ?_, ?_⟩
    · exact le_max_left 0 _
    · exact max_le hf (by linarith)
    · intro n hn
      have hn1 : 1 ≤ n := by
        rw [hn] at hpos
        exact_mod_cast hpos
      have hmax : max 0 (l.fuel - 1) = l.fuel - 1 := by
        rw [hn]
        rw [max_eq_right]
        have : (1 : ℚ) ≤ (n : ℚ) := by exact_mod_cast hn1
        linarith
      constructor
      · intro _
        refine ⟨hn1, ?_⟩
        rw [hmax, hn]
        push_cast [hn1]
        ring
      · refine ⟨n - 1, ?_⟩
        rw [hmax, hn]
        push_cast [hn1]
        ring
  | false =>
    have hif : (if (false : Bool) = true then max 0 (l.fuel - 1) else l.fuel) =
        l.fuel := if_neg (by simp)
    rw [hif]
    refine ⟨rfl, fun hc => absurd hc (by simp), fun _ => rfl, hf, le_refl _, ?_⟩
    intro n hn
    exact ⟨fun hc => absurd hc (by simp), ⟨n, hn⟩⟩

/-- C9 witness: a thrusting tick at fuel 500 (an active vehicle, thrust held)
consumes exactly one unit. -/
theorem fuel_thrust_witness :
    (false : Bool) = false ∧ (0 : ℚ) ≤ 500 ∧
    (update (fun _ => 0) (fun _ => 0) [⟨0, 500⟩, ⟨800, 500⟩] 300 ⟨false, false, true⟩
        ⟨400, 80, 0, 0.5, 0, 500, false, false, false⟩).1.thrusting =
      ((true : Bool) && decide ((0 : ℚ) < 500)) ∧
    ((update (fun _ => 0) (fun _ => 0) [⟨0, 500⟩, ⟨800, 500⟩] 300 ⟨false, false, true⟩
        ⟨400, 80, 0, 0.5, 0, 500, false, false, false⟩).1.thrusting = true →
      (update (fun _ => 0) (fun _ => 0) [⟨0, 500⟩, ⟨800, 500⟩] 300 ⟨false, false, true⟩
        ⟨400, 80, 0, 0.5, 0, 500, false, false, false⟩).1.fuel = max 0 ((500 : ℚ) - 1)) := by
  have h := fuel_thrust (fun _ => 0) (fun _ => 0) [⟨0, 500⟩, ⟨800, 500⟩] 300
    ⟨false, false, true⟩ ⟨400, 80, 0, 0.5, 0, 500, false, false, false⟩ rfl rfl (by norm_num)
  exact ⟨rfl, by norm_num, h.1, h.2.1⟩

/-- C6: at a contact tick, the crash reason follows the fixed order
on-pad, safe-angle, safe-speed: off the pad yields `CrashedOffPad` regardless
of angle and speed; on the pad with an unsafe angle yields `CrashedTilted`;
on the pad with safe angle and unsafe speed yields `CrashedTooFast` carrying
`|vy|` at impact. -/
theorem crash_precedence (tcos tsin : ℚ → ℚ) (terrain : List Point) (padX : ℚ)
    (inp : Inputs) (l : Lander) (hd : l.dead = false) (hl : l.landed = false)
    (hcontact : terrainYAt terrain (physStep tcos tsin inp l).x ≤
      (physStep tcos tsin inp l).y + 14) :
    ((onPad padX (physStep tcos tsin inp l).x = false →
      (update tcos tsin terrain padX inp l).2 = some Outcome.CrashedOffPad) ∧
     (onPad padX (physStep tcos tsin inp l).x = true →
      safeAngle (physStep tcos tsin inp l).angle = false →
      (update tcos tsin terrain padX inp l).2 = some Outcome.CrashedTilted) ∧
     (onPad padX (physStep tcos tsin inp l).x = true →
      safeAngle (physStep tcos tsin inp l).angle = true →
      safeSpeed (physStep tcos tsin inp l).vx (physStep tcos tsin inp l).vy = false →
      (update tcos tsin terrain padX inp l).2 =
        some (Outcome.CrashedTooFast |(physStep tcos tsin inp l).vy|))) := by
  have hnot : (l.dead || l.landed) = false := by rw [hd, hl]; rfl
  have hupd : update tcos tsin terrain padX inp l =
      classify terrain padX (physStep tcos tsin inp l) := by
    simp [update, hnot]
  rw [hupd]
  refine ⟨fun hOn => ?_, fun hOn hAng => ?_, fun hOn hAng hSp => ?_⟩
  · simp only [classify, if_pos hcontact, hOn, Bool.false_and, Bool.false_eq_true,
      if_false, Bool.not_false, if_pos]
  · simp only [classify, if_pos hcontact, hOn, hAng, Bool.true_and, Bool.false_and,
      Bool.false_eq_true, if_false, Bool.not_true, Bool.not_false, if_pos]
  · simp only [classify, if_pos hcontact, hOn, hAng, hSp, Bool.true_and, Bool.and_false,
      Bool.false_eq_true, if_false, Bool.not_true, Bool.not_false, ite_false, ite_true]

/-- C6 witness: an off-pad vehicle hitting the ground with both an unsafe
angle (90°) and an unsafe speed yields `CrashedOffPad`, not the other two
reasons. -/
theorem crash_precedence_witness :
    (update (fun _ => 0) (fun _ => 0) [⟨0, 500⟩, ⟨800, 500⟩] 300 ⟨false, false, false⟩
        ⟨100, 485, 0, 5, 90, 50, false, false, false⟩).2 = some Outcome.CrashedOffPad ∧
    safeAngle (physStep (fun _ => 0) (fun _ => 0) ⟨false, false, false⟩
        ⟨100, 485, 0, 5, 90, 50, false, false, false⟩).angle = false ∧
    safeSpeed (physStep (fun _ => 0) (fun _ => 0) ⟨false, false, false⟩
        ⟨100, 485, 0, 5, 90, 50, false, false, false⟩).vx
      (physStep (fun _ => 0) (fun _ => 0) ⟨false, false, false⟩
        ⟨100, 485, 0, 5, 90, 50, false, false, false⟩).vy = false := by
  have h := crash_precedence (fun _ => 0) (fun _ => 0) [⟨0, 500⟩, ⟨800, 500⟩] 300
    ⟨false, false, false⟩ ⟨100, 485, 0, 5, 90, 50, false, false, false⟩ rfl rfl
    (by norm_num [physStep, wrapX, terrainYAt, bsearch, bsearchAux, List.getD,
      GRAVITY, THRUST_POWER, ROTATE_SPEED, W, H])
  refine ⟨h.1 ?_, ?_, ?_⟩
  · norm_num [onPad, physStep, wrapX, GRAVITY, THRUST_POWER, W, PAD_WIDTH]
  · norm_num [safeAngle, physStep, angleDiffOf, normAngleOf, jsMod, jsTrunc,
      GRAVITY, THRUST_POWER, MAX_LAND_ANGLE]
  · have habs : |(201 : ℚ) / 40| = 201 / 40 := abs_of_nonneg (by norm_num)
    norm_num [safeSpeed, physStep, GRAVITY, THRUST_POWER, MAX_LAND_VY, MAX_LAND_VX, habs]

/-- C1: a safe touchdown with impact speed `vy = 1.0` (pre-tick `vy = 0.975`
plus gravity `0.025`), on the pad, upright, with fuel 100.  The code zeroes
`lander.vy` before reading it for the speed bonus, so the bonus is the
constant `round((2 - 0) * 100) = 200` and the score is `fuel + 200 = 300`,
whereas the claimed formula `fuel + round((MAX_LAND_VY - |vy_at_impact|) *
100)` gives `100 + round((2 - 1) * 100) = 200`. -/
theorem landing_score_constant_bonus :
    (update (fun _ => 0) (fun _ => 0) [⟨0, 500⟩, ⟨800, 500⟩] 300 ⟨false, false, false⟩
      ⟨340, 485, 0, 0.975, 0, 100, false, false, false⟩).2 =
      some (Outcome.Landed 300) ∧
    (physStep (fun _ => 0) (fun _ => 0) ⟨false, false, false⟩
      ⟨340, 485, 0, 0.975, 0, 100, false, false, false⟩).vy = 1 ∧
    (100 : ℚ) + (jsRound ((MAX_LAND_VY - |(1 : ℚ)|) * 100) : ℤ) = 200 ∧
    ¬ ((300 : ℚ) = 200) := by
  refine ⟨?_, ?_, ?_, by norm_num⟩
  · norm_num [update, classify, physStep, wrapX, onPad, safeAngle, safeSpeed,
      normAngleOf, angleDiffOf, jsMod, jsTrunc, jsRound, terrainYAt, bsearch,
      bsearchAux, List.getD, GRAVITY, ROTATE_SPEED, THRUST_POWER, MAX_LAND_VY,
      MAX_LAND_VX, MAX_LAND_ANGLE, PAD_WIDTH, W, H]
  · norm_num [physStep, GRAVITY, THRUST_POWER]
  · norm_num [jsRound, MAX_LAND_VY]

-- ─── Terrain generator lemmas ───

/-- With `W = 800` and `step = 10` the generator produces 81 columns. -/
lemma segs_eq : segs = 81 := by
  have h : (W / 10 : ℚ) = ((80 : ℤ) : ℚ) := by norm_num [W]
  simp only [segs, h, Int.ceil_intCast]
  rfl

/-- Displacement never writes outside the open interval `(lo, hi)`. -/
lemma displaceAux_outside (rand : ℕ → ℚ) :
    ∀ fuel raw lo hi rough k j, j ≤ lo ∨ hi ≤ j →
      (displaceAux rand fuel raw lo hi rough k).1 j = raw j := by
  intro fuel
  induction fuel with
  | zero => intro raw lo hi rough k j _; rfl
  | succ fuel ih =>
    intro raw lo hi rough k j hj
    by_cases hbase : hi - lo ≤ 1
    · simp only [displaceAux, if_pos hbase]
    · have h2 : 2 ≤ hi - lo := by omega
      have hmid1 : lo < (lo + hi) / 2 := by omega
      have hmid2 : (lo + hi) / 2 < hi := by omega
      simp only [displaceAux, if_neg hbase]
      rw [ih _ _ _ _ _ j (by omega)]
      rw [ih _ _ _ _ _ j (by omega)]
      have hne : ¬ j = (lo + hi) / 2 := by omega
      simp only [if_neg hne]

/-- Every written slot of a raw array lies inside the displacement clamp
`[0.45·H, H-20]`. -/
def RawOk (raw : ℕ → Option ℚ) : Prop :=
  ∀ j v, raw j = some v → H * 0.45 ≤ v ∧ v ≤ H - 20

/-- The displacement clamp keeps `RawOk`: every slot `displace` writes is
clamped into `[0.45·H, H-20]` whatever the random draw. -/
lemma displaceAux_rawOk (rand : ℕ → ℚ) :
    ∀ fuel raw lo hi rough k, RawOk raw →
      RawOk (displaceAux rand fuel raw lo hi rough k).1 := by
  intro fuel
  induction fuel with
  | zero => intro raw lo hi rough k hok; exact hok
  | succ fuel ih =>
    intro raw lo hi rough k hok
    by_cases hbase : hi - lo ≤ 1
    · simp only [displaceAux, if_pos hbase]; exact hok
    · simp only [displaceAux, if_neg hbase]
      apply ih
      apply ih
      intro j v hv
      by_cases hj : j = (lo + hi) / 2
      · simp only [if_pos hj, Option.some.injEq] at hv
        constructor
        · rw [← hv]; exact le_max_left _ _
        · rw [← hv]
          apply max_le
          · norm_num [H]
          · exact min_le_left _ _
      · simp only [if_neg hj] at hv
        exact hok j v hv

/-- Pad-centre bounds: `padY` is an integer in `[330, 479]` whenever the
draws lie in `[0, 1)`. -/
lemma gtPadY_bounds (rand : ℕ → ℚ) (hr : ∀ n, 0 ≤ rand n ∧ rand n < 1) :
    330 ≤ gtPadY rand ∧ gtPadY rand ≤ 479 := by
  have h0 := (hr 1).1
  have h1 := (hr 1).2
  have hq1 : (330 : ℚ) ≤ rand 1 * (H * 0.25) + H * 0.55 := by
    have hm : 0 ≤ rand 1 * (H * 0.25) := mul_nonneg h0 (by norm_num [H])
    norm_num [H] at hm ⊢
    linarith
  have hq2 : rand 1 * (H * 0.25) + H * 0.55 < 480 := by
    have hm : rand 1 * (H * 0.25) < 1 * (H * 0.25) :=
      mul_lt_mul_of_pos_right h1 (by norm_num [H])
    norm_num [H] at hm ⊢
    linarith
  unfold gtPadY
  constructor
  · have := Int.le_floor.mpr (by exact_mod_cast hq1 :
      ((330 : ℤ) : ℚ) ≤ rand 1 * (H * 0.25) + H * 0.55)
    exact_mod_cast this
  · have := Int.floor_lt.mpr (by exact_mod_cast hq2 :
      rand 1 * (H * 0.25) + H * 0.55 < ((480 : ℤ) : ℚ))
    have h479 : ⌊rand 1 * (H * 0.25) + H * 0.55⌋ ≤ 479 := by omega
    exact_mod_cast h479

/-- The seeded raw array satisfies the clamp bounds: both endpoint seeds lie
in `[290, 519] ⊆ [0.45·H, H-20]`. -/
lemma gtRawSeeded_rawOk (rand : ℕ → ℚ) (hr : ∀ n, 0 ≤ rand n ∧ rand n < 1) :
    RawOk (gtRawSeeded rand) := by
  have hpy := gtPadY_bounds rand hr
  intro j v hv
  simp only [gtRawSeeded] at hv
  have hseed : ∀ m : ℕ, H * 0.45 ≤ gtPadY rand + (rand m - 0.5) * 80 ∧
      gtPadY rand + (rand m - 0.5) * 80 ≤ H - 20 := by
    intro m
    have h0 := (hr m).1
    have h1 := (hr m).2
    constructor
    · have : (-40 : ℚ) ≤ (rand m - 0.5) * 80 := by nlinarith
      norm_num [H]
      linarith [hpy.1]
    · have : (rand m - 0.5) * 80 ≤ 40 := by nlinarith
      norm_num [H]
      linarith [hpy.2]
  by_cases hlast : j = segs - 1
  · simp only [if_pos hlast, Option.some.injEq] at hv
    rw [← hv]; exact hseed 3
  · simp only [if_neg hlast] at hv
    by_cases h0 : j = 0
    · simp only [if_pos h0, Option.some.injEq] at hv
      rw [← hv]; exact hseed 2
    · simp only [if_neg h0] at hv
      exact absurd hv (by simp)

/-- Rounding preserves the band `[0.45·H, H]`: the rounded height of a
clamped value stays between 270 and 580. -/
lemma jsRound_band (v : ℚ) (h1 : H * 0.45 ≤ v) (h2 : v ≤ H - 20) :
    H * 0.45 ≤ ((jsRound v : ℤ) : ℚ) ∧ ((jsRound v : ℤ) : ℚ) ≤ H := by
  rw [H] at h1 h2 ⊢
  norm_num at h1 h2 ⊢
  constructor
  · have : (270 : ℤ) ≤ ⌊v + 1 / 2⌋ := Int.le_floor.mpr (by push_cast; linarith)
    unfold jsRound
    exact_mod_cast this
  · have : ⌊v + 1 / 2⌋ < (601 : ℤ) := Int.floor_lt.mpr (by push_cast; linarith)
    have h600 : ⌊v + 1 / 2⌋ ≤ 600 := by omega
    unfold jsRound
    exact_mod_cast h600

/-- C8: for every terrain the generator produces from draws in `[0, 1)`,
every point's y lies within `[H*0.45, H]` — including the two endpoint
columns, whose seeds land in `[290, 519]` and therefore inside the band even
though they bypass the midpoint-displacement clamp. -/
theorem terrain_height_bounds (rand : ℕ → ℚ) (hr : ∀ n, 0 ≤ rand n ∧ rand n < 1) :
    ∀ p ∈ (generateTerrain rand).points, H * 0.45 ≤ p.y ∧ p.y ≤ H := by
  have hraw : RawOk (gtRaw rand) :=
    displaceAux_rawOk rand segs (gtRawSeeded rand) 0 (segs - 1) 120 4
      (gtRawSeeded_rawOk rand hr)
  have hpy := gtPadY_bounds rand hr
  have hpadY : H * 0.45 ≤ gtPadY rand ∧ gtPadY rand ≤ H := by
    norm_num [H] at hpy ⊢
    constructor <;> linarith [hpy.1, hpy.2]
  intro p hp
  simp only [generateTerrain, List.mem_map, List.mem_range] at hp
  obtain ⟨i, _, rfl⟩ := hp
  simp only [gtPoint]
  by_cases hc : gtPadX rand ≤ (i : ℚ) * 10 ∧ (i : ℚ) * 10 ≤ gtPadX rand + PAD_WIDTH
  · simp only [if_pos hc]
    exact hpadY
  · simp only [if_neg hc]
    cases hg : gtRaw rand i with
    | none => exact hpadY
    | some v =>
      have hv := hraw i v hg
      by_cases hz : ((jsRound v : ℤ) : ℚ) = 0
      · simp only [hz, if_pos rfl]
        exact hpadY
      · simp only [if_neg hz]
        exact jsRound_band v hv.1 hv.2

/-- The constant stream of draws `1/2`, used for concrete generator runs. -/
def halfRand : ℕ → ℚ := fun _ => 1 / 2

/-- C8 witness: the constant draw `1/2` lies in `[0, 1)` and the resulting
terrain's heights all sit in the band. -/
theorem terrain_height_bounds_witness :
    (∀ n, 0 ≤ halfRand n ∧ halfRand n < 1) ∧
    ∀ p ∈ (generateTerrain halfRand).points, H * 0.45 ≤ p.y ∧ p.y ≤ H := by
  have hr : ∀ n, 0 ≤ halfRand n ∧ halfRand n < 1 := by
    intro n
    norm_num [halfRand]
  exact ⟨hr, terrain_height_bounds halfRand hr⟩

/-- C4 amended: every generated point whose x lies in
`[padX, padX + padWidth]` has y exactly `padY` (the converse direction of the
claim fails: a displaced column outside the band can round to `padY` too). -/
theorem pad_points_flat (rand : ℕ → ℚ) :
    ∀ p ∈ (generateTerrain rand).points,
      (generateTerrain rand).padX ≤ p.x →
      p.x ≤ (generateTerrain rand).padX + PAD_WIDTH →
      p.y = (generateTerrain rand).padY := by
  intro p hp
  simp only [generateTerrain, List.mem_map, List.mem_range] at hp
  obtain ⟨i, _, rfl⟩ := hp
  simp only [generateTerrain]
  intro h1 h2
  have hx : (gtPoint rand i).x = (i : ℚ) * 10 := by
    simp only [gtPoint]
    by_cases hc : gtPadX rand ≤ (i : ℚ) * 10 ∧ (i : ℚ) * 10 ≤ gtPadX rand + PAD_WIDTH
    · simp only [if_pos hc]
    · simp only [if_neg hc]
      cases hg : gtRaw rand i with
      | none => rfl
      | some v => by_cases hz : ((jsRound v : ℤ) : ℚ) = 0 <;> simp [hz]
  rw [hx] at h1 h2
  simp only [gtPoint, if_pos (And.intro h1 h2)]

/-- C4 counterexample: with the constant draw `1/2`, the pad is
`padX = 360`, `padY = 405`, yet the very first terrain point `(0, 405)` —
far outside `[padX, padX + padWidth]` — also has y exactly `padY`, refuting
"no point outside that range has y equal to padY". -/
theorem pad_points_counterexample :
    (⟨0, 405⟩ : Point) ∈ (generateTerrain halfRand).points ∧
    (generateTerrain halfRand).padY = 405 ∧
    (⟨0, 405⟩ : Point).y = (generateTerrain halfRand).padY ∧
    ¬ ((generateTerrain halfRand).padX ≤ (⟨0, 405⟩ : Point).x) := by
  have hpx : gtPadX halfRand = 360 := by
    norm_num [gtPadX, halfRand, W]
  have hpy : gtPadY halfRand = 405 := by
    norm_num [gtPadY, halfRand, H]
  have hraw0 : gtRaw halfRand 0 = some 405 := by
    rw [gtRaw, displaceAux_outside halfRand segs (gtRawSeeded halfRand) 0 (segs - 1) 120 4 0
      (Or.inl (le_refl 0))]
    rw [gtRawSeeded]
    have h80 : ¬ (0 = segs - 1) := by rw [segs_eq]; omega
    simp only [if_neg h80, if_pos rfl, hpy, Option.some.injEq, halfRand]
    norm_num
  have hpt : gtPoint halfRand 0 = ⟨0, 405⟩ := by
    have hc : ¬ (gtPadX halfRand ≤ (0 : ℚ) * 10 ∧
        (0 : ℚ) * 10 ≤ gtPadX halfRand + PAD_WIDTH) := by
      rw [hpx]
      norm_num
    simp only [gtPoint, Nat.cast_zero, hc, if_neg hc, hraw0]
    have hr405 : (jsRound 405 : ℤ) = 405 := by
      norm_num [jsRound]
    rw [hr405]
    norm_num
  refine ⟨?_, ?_, ?_, ?_⟩
  · simp only [generateTerrain, List.mem_map]
    refine ⟨0, ?_, hpt⟩
    simp [segs_eq]
  · simp only [generateTerrain, hpy]
  · simp only [generateTerrain, hpy]
  · simp only [generateTerrain, hpx]
    norm_num

/-- C4 amended witness: the on-pad point `(360, 405)` of the constant-draw
terrain indeed carries `padY = 405`. -/
theorem pad_points_flat_witness :
    (⟨360, 405⟩ : Point) ∈ (generateTerrain halfRand).points ∧
    (generateTerrain halfRand).padX ≤ (⟨360, 405⟩ : Point).x ∧
    (⟨360, 405⟩ : Point).x ≤ (generateTerrain halfRand).padX + PAD_WIDTH ∧
    (⟨360, 405⟩ : Point).y = (generateTerrain halfRand).padY := by
  have hpx : gtPadX halfRand = 360 := by
    norm_num [gtPadX, halfRand, W]
  have hpy : gtPadY halfRand = 405 := by
    norm_num [gtPadY, halfRand, H]
  have hc : gtPadX halfRand ≤ ((36 : ℕ) : ℚ) * 10 ∧
      ((36 : ℕ) : ℚ) * 10 ≤ gtPadX halfRand + PAD_WIDTH := by
    rw [hpx]
    norm_num [PAD_WIDTH]
  have hpt : gtPoint halfRand 36 = ⟨360, 405⟩ := by
    simp only [gtPoint, if_pos hc, hpy]
    norm_num
  have hmem : (⟨360, 405⟩ : Point) ∈ (generateTerrain halfRand).points := by
    simp only [generateTerrain, List.mem_map]
    refine ⟨36, ?_, hpt⟩
    simp [segs_eq]
  have h1 : (generateTerrain halfRand).padX ≤ (⟨360, 405⟩ : Point).x := by
    simp only [generateTerrain, hpx]
    norm_num
  have h2 : (⟨360, 405⟩ : Point).x ≤ (generateTerrain halfRand).padX + PAD_WIDTH := by
    simp only [generateTerrain, hpx]
    norm_num [PAD_WIDTH]
  exact ⟨hmem, h1, h2, pad_points_flat halfRand ⟨360, 405⟩ hmem h1 h2⟩

end Lnrlndr
